import Mathlib

/-!
Verification of the grid spatial partition in `src/partition/grid.rs`.

The Rust code is embedded shallowly:
* `i32` coordinates become `Int`; Rust's `/` on integers truncates toward
  zero, which is `Int.tdiv`.
* `u32` entity ids become `Nat`.
* The two `HashMap`s become functions into `Option`.
* `Vec::swap_remove i` becomes `(l.set i l.getLast).dropLast`.
* `Iterator::position` becomes a structural recursion returning `Option Nat`.
* `GridPartition::query` takes `&mut self` (it materialises missing cells);
  it is embedded as a state-passing fold returning the new state and the
  collected entity ids.
-/

namespace Chariot

/-- Cell key `(row, col)`: `struct CellKey { row: i32, col: i32 }`. -/
structure CellKey where
  row : Int
  col : Int
  deriving DecidableEq, Repr

/-- `CellKey::new`. -/
def CellKey.new (row col : Int) : CellKey := ⟨row, col⟩

/-- A cell is its membership vector `entities: Vec<u32>`. -/
abbrev Cell := List Nat

/-- `Cell::new`. -/
def Cell.new : Cell := []

/-- `Cell::add`: `self.entities.push(entity_id)`. -/
def Cell.add (c : Cell) (entity_id : Nat) : Cell := c ++ [entity_id]

/-- Rust `Iterator::position`: index of the first element satisfying `p`. -/
def position (p : Nat → Bool) : List Nat → Option Nat
  | [] => none
  | a :: l => if p a then some 0 else (position p l).map (fun i => i + 1)

/-- Rust `Vec::swap_remove i`: overwrite slot `i` with the last element and
pop the last slot.  (For the index produced by `position` the list is
nonempty, so the `getLastD` default is never used.) -/
def swapRemove (l : List Nat) (i : Nat) : List Nat :=
  (l.set i (l.getLastD 0)).dropLast

/-- `Cell::remove`: find the first occurrence of `entity_id`; if present,
swap-remove it; otherwise leave the vector untouched. -/
def Cell.remove (c : Cell) (entity_id : Nat) : Cell :=
  match position (fun id => id == entity_id) c with
  | none => c
  | some i => swapRemove c i

/-- `Cell::entities`: read-only view of the membership vector. -/
def Cell.entities (c : Cell) : List Nat := c

/-- `struct GridPartition`. `entities` is the entity-id → cell-key map
(the spec's `entity_location`), `cells` the cell-key → cell map. -/
structure GridPartition where
  cell_width : Int
  cell_height : Int
  entities : Nat → Option CellKey
  cells : CellKey → Option Cell

/-- `GridPartition::new`. -/
def GridPartition.new (cell_width cell_height : Int) : GridPartition :=
  { cell_width := cell_width, cell_height := cell_height,
    entities := fun _ => none, cells := fun _ => none }

/-- `GridPartition::row_col`:
`(position.1 / self.cell_height, position.0 / self.cell_width)` with Rust's
truncating division. -/
def GridPartition.row_col (g : GridPartition) (pos : Int × Int) : Int × Int :=
  (Int.tdiv pos.2 g.cell_height, Int.tdiv pos.1 g.cell_width)

/-- `GridPartition::cell_key`. -/
def GridPartition.cell_key (g : GridPartition) (pos : Int × Int) : CellKey :=
  CellKey.new (g.row_col pos).1 (g.row_col pos).2

/-- `GridPartition::cell_mut`, state effect only: insert an empty cell if
the key is absent. -/
def GridPartition.cell_mut (g : GridPartition) (k : CellKey) : GridPartition :=
  if (g.cells k).isSome then g
  else { g with cells := fun k2 => if k2 = k then some Cell.new else g.cells k2 }

/-- The membership vector the Rust code reads through `cell_mut(k).entities()`:
the stored cell, or the freshly inserted empty one. -/
def GridPartition.membersAt (g : GridPartition) (k : CellKey) : Cell :=
  (g.cells k).getD []

/-- `GridPartition::add_to_cell`: `cell_mut(cell_key).add(entity_id)` — ensure
the cell exists, then push. -/
def GridPartition.add_to_cell (g : GridPartition) (k : CellKey) (entity_id : Nat) :
    GridPartition :=
  { g with cells := fun k2 => if k2 = k then some (Cell.add (g.membersAt k) entity_id)
                              else g.cells k2 }

/-- `GridPartition::remove_from_cell`: `cell_mut(cell_key).remove(entity_id)` —
ensure the cell exists, then swap-remove. -/
def GridPartition.remove_from_cell (g : GridPartition) (k : CellKey) (entity_id : Nat) :
    GridPartition :=
  { g with cells := fun k2 => if k2 = k then some (Cell.remove (g.membersAt k) entity_id)
                              else g.cells k2 }

/-- `GridPartition::update_entity`. -/
def GridPartition.update_entity (g : GridPartition) (entity_id : Nat) (pos : Int × Int) :
    GridPartition :=
  let ck := g.cell_key pos
  match g.entities entity_id with
  | none =>
      let g1 : GridPartition :=
        { g with entities := fun i => if i = entity_id then some ck else g.entities i }
      g1.add_to_cell ck entity_id
  | some old_cell_key =>
      (g.remove_from_cell old_cell_key entity_id).add_to_cell ck entity_id

/-- The integers from `lo` to `hi` inclusive, ascending (Rust `lo..(hi+1)`);
empty when `hi < lo`. -/
def intRange (lo hi : Int) : List Int :=
  (List.range (hi + 1 - lo).toNat).map (fun (i : Nat) => lo + (i : Int))

/-- The cell keys enumerated by `query`'s nested loops: rows outer, columns
inner, both ascending. -/
def GridPartition.queryKeys (g : GridPartition) (start_position end_position : Int × Int) :
    List CellKey :=
  let s := g.row_col start_position
  let e := g.row_col end_position
  (intRange s.1 e.1).flatMap (fun row => (intRange s.2 e.2).map (fun col => CellKey.new row col))

/-- One iteration of `query`'s inner loop:
`entities.extend(self.cell_mut(CellKey::new(row, col)).entities().iter())`. -/
def GridPartition.queryStep (p : GridPartition × List Nat) (k : CellKey) :
    GridPartition × List Nat :=
  let g1 := p.1.cell_mut k
  (g1, p.2 ++ Cell.entities (g1.membersAt k))

/-- `GridPartition::query`: returns the updated grid (missing cells
materialised) and the concatenated entity ids. -/
def GridPartition.query (g : GridPartition) (start_position end_position : Int × Int) :
    GridPartition × List Nat :=
  (g.queryKeys start_position end_position).foldl GridPartition.queryStep (g, [])

/-- Grid states reachable through the public interface. -/
inductive Reachable : GridPartition → Prop
  | new (w h : Int) : Reachable (GridPartition.new w h)
  | update_entity (g : GridPartition) (id : Nat) (pos : Int × Int) :
      Reachable g → Reachable (g.update_entity id pos)
  | query (g : GridPartition) (sp ep : Int × Int) :
      Reachable g → Reachable (g.query sp ep).1

/-! ### Lemmas about `position` -/

theorem position_cons (p : Nat → Bool) (a : Nat) (t : List Nat) :
    position p (a :: t) = if p a then some 0 else (position p t).map (fun i => i + 1) :=
  rfl

theorem position_eq_none_iff (p : Nat → Bool) :
    ∀ l : List Nat, position p l = none ↔ ∀ x ∈ l, p x = false := by
  intro l
  induction l with
  | nil => simp [position]
  | cons a t ih =>
    constructor
    · intro h x hx
      rw [position_cons] at h
      by_cases hp : p a
      · rw [if_pos hp] at h
        exact absurd h (by simp)
      · rw [if_neg hp] at h
        rcases List.mem_cons.1 hx with rfl | hx2
        · simpa using hp
        · exact (ih.1 (by simpa using h)) x hx2
    · intro h
      rw [position_cons, if_neg (by simp [h a (List.mem_cons_self a t)])]
      simp only [Option.map_eq_none']
      exact ih.2 (fun x hx => h x (List.mem_cons_of_mem a hx))

theorem position_lt (p : Nat → Bool) :
    ∀ (l : List Nat) (i : Nat), position p l = some i → i < l.length := by
  intro l
  induction l with
  | nil => intro i h; simp [position] at h
  | cons a t ih =>
    intro i h
    rw [position_cons] at h
    by_cases hp : p a
    · rw [if_pos hp] at h
      injection h with h2
      subst h2
      simp
    · rw [if_neg hp] at h
      obtain ⟨j, hj, hji⟩ := Option.map_eq_some'.1 h
      subst hji
      have := ih j hj
      simp only [List.length_cons]
      omega

theorem position_get (p : Nat → Bool) :
    ∀ (l : List Nat) (i : Nat), position p l = some i →
      ∀ (h : i < l.length), p (l.get ⟨i, h⟩) = true := by
  intro l
  induction l with
  | nil => intro i h; simp [position] at h
  | cons a t ih =>
    intro i h
    rw [position_cons] at h
    by_cases hp : p a
    · rw [if_pos hp] at h
      injection h with h2
      subst h2
      intro h2
      exact hp
    · rw [if_neg hp] at h
      obtain ⟨j, hj, hji⟩ := Option.map_eq_some'.1 h
      subst hji
      intro h2
      exact ih j hj (by simpa using h2)

/-! ### Counting lemmas for `swapRemove` and `Cell.remove` -/

theorem getLastD_default_irrel (b d e : Nat) (t : List Nat) :
    (b :: t).getLastD d = (b :: t).getLastD e := by
  rw [List.getLastD_eq_getLast?, List.getLastD_eq_getLast?,
    List.getLast?_eq_getLast (b :: t) (by simp), Option.getD_some, Option.getD_some]

theorem count_getLastD_dropLast (b x d : Nat) (t : List Nat) :
    ((b :: t).dropLast).count x + (if (b :: t).getLastD d = x then 1 else 0)
      = (b :: t).count x := by
  have hne : (b :: t) ≠ [] := by simp
  have hd : (b :: t).getLastD d = (b :: t).getLast hne := by
    rw [List.getLastD_eq_getLast?, List.getLast?_eq_getLast _ hne, Option.getD_some]
  conv_rhs => rw [← List.dropLast_append_getLast hne]
  rw [hd, List.count_append, List.count_singleton]
  by_cases hx : (b :: t).getLast hne = x
  · simp [hx]
  · simp [hx, Ne.symm hx]

theorem count_swapRemove :
    ∀ (l : List Nat) (i : Nat) (h : i < l.length) (x : Nat),
      (swapRemove l i).count x + (if l.get ⟨i, h⟩ = x then 1 else 0) = l.count x := by
  intro l
  induction l with
  | nil => intro i h x; simp at h
  | cons a t ih =>
    intro i h x
    cases i with
    | zero =>
      cases t with
      | nil =>
        have hrw : swapRemove [a] 0 = [] := rfl
        have hg : ([a] : List Nat).get ⟨0, h⟩ = a := rfl
        rw [hrw, hg, List.count_nil, List.count_singleton, Nat.zero_add]
        by_cases hax : a = x
        · subst hax; simp
        · simp [hax]
      | cons b t2 =>
        have hrw : swapRemove (a :: b :: t2) 0
            = (b :: t2).getLastD 0 :: (b :: t2).dropLast := by
          unfold swapRemove
          rw [List.getLastD_cons, getLastD_default_irrel b a 0 t2, List.set_cons_zero,
            List.dropLast_cons₂]
        have hg : (a :: b :: t2).get ⟨0, h⟩ = a := rfl
        rw [hrw, hg]
        have hc := count_getLastD_dropLast b x 0 t2
        simp only [List.count_cons, beq_iff_eq] at hc ⊢
        omega
    | succ i =>
      cases t with
      | nil => simp at h
      | cons b t2 =>
        have hlen : i < (b :: t2).length := by simpa using h
        have hrw : swapRemove (a :: b :: t2) (i + 1) = a :: swapRemove (b :: t2) i := by
          unfold swapRemove
          rw [List.getLastD_cons, getLastD_default_irrel b a 0 t2, List.set_cons_succ]
          cases t2 with
          | nil =>
            cases i with
            | zero => rfl
            | succ j => exact absurd hlen (by simp)
          | cons c t3 =>
            cases i with
            | zero => rw [List.set_cons_zero, List.dropLast_cons₂]
            | succ j => rw [List.set_cons_succ, List.dropLast_cons₂]
        have hg : (a :: b :: t2).get ⟨i + 1, h⟩ = (b :: t2).get ⟨i, hlen⟩ := rfl
        rw [hrw, hg]
        have hc := ih i hlen x
        simp only [List.count_cons, beq_iff_eq] at hc ⊢
        omega

theorem remove_of_not_mem (c : Cell) (a : Nat) (h : a ∉ c) : Cell.remove c a = c := by
  unfold Cell.remove
  split
  · rfl
  next i heq =>
    exfalso
    have hlt := position_lt _ c i heq
    have hp := position_get _ c i heq hlt
    simp only [beq_iff_eq] at hp
    exact h (hp ▸ List.get_mem c i hlt)

theorem count_remove_self (c : Cell) (a : Nat) (h : a ∈ c) :
    (Cell.remove c a).count a + 1 = c.count a := by
  unfold Cell.remove
  split
  next heq =>
    exfalso
    rw [position_eq_none_iff] at heq
    simpa using heq a h
  next i heq =>
    have hlt := position_lt _ c i heq
    have hp := position_get _ c i heq hlt
    simp only [beq_iff_eq] at hp
    have := count_swapRemove c i hlt a
    rw [if_pos hp] at this
    exact this

theorem count_remove_ne (c : Cell) (a x : Nat) (hx : x ≠ a) :
    (Cell.remove c a).count x = c.count x := by
  unfold Cell.remove
  split
  · rfl
  next i heq =>
    have hlt := position_lt _ c i heq
    have hp := position_get _ c i heq hlt
    simp only [beq_iff_eq] at hp
    have := count_swapRemove c i hlt x
    rw [if_neg (by rw [hp]; exact fun hc => hx hc.symm)] at this
    omega

theorem count_remove_eq_zero (c : Cell) (a : Nat) (h : c.count a ≤ 1) :
    (Cell.remove c a).count a = 0 := by
  by_cases hm : a ∈ c
  · have := count_remove_self c a hm
    omega
  · rw [remove_of_not_mem c a hm]
    exact List.count_eq_zero.2 hm

theorem mem_remove_iff (c : Cell) (a x : Nat) (hx : x ≠ a) :
    x ∈ Cell.remove c a ↔ x ∈ c := by
  rw [← List.count_pos_iff, ← List.count_pos_iff, count_remove_ne c a x hx]

theorem mem_remove_append_iff (c : Cell) (a x : Nat) (h : a ∈ c) :
    x ∈ Cell.remove c a ++ [a] ↔ x ∈ c := by
  by_cases hx : x = a
  · subst hx
    simp [h]
  · simp only [List.mem_append, List.mem_singleton, hx, or_false]
    exact mem_remove_iff c a x hx

/-! ### State-level lemmas -/

theorem membersAt_add_to_cell (g : GridPartition) (k : CellKey) (a : Nat) (k2 : CellKey) :
    (g.add_to_cell k a).membersAt k2
      = if k2 = k then g.membersAt k ++ [a] else g.membersAt k2 := by
  unfold GridPartition.add_to_cell GridPartition.membersAt Cell.add
  by_cases hk : k2 = k <;> simp [hk]

theorem membersAt_remove_from_cell (g : GridPartition) (k : CellKey) (a : Nat) (k2 : CellKey) :
    (g.remove_from_cell k a).membersAt k2
      = if k2 = k then Cell.remove (g.membersAt k) a else g.membersAt k2 := by
  unfold GridPartition.remove_from_cell GridPartition.membersAt
  by_cases hk : k2 = k <;> simp [hk]

theorem entities_add_to_cell (g : GridPartition) (k : CellKey) (a : Nat) :
    (g.add_to_cell k a).entities = g.entities := rfl

theorem entities_remove_from_cell (g : GridPartition) (k : CellKey) (a : Nat) :
    (g.remove_from_cell k a).entities = g.entities := rfl

theorem cell_key_add_to_cell (g : GridPartition) (k : CellKey) (a : Nat) (pos : Int × Int) :
    (g.add_to_cell k a).cell_key pos = g.cell_key pos := rfl

theorem cell_key_remove_from_cell (g : GridPartition) (k : CellKey) (a : Nat) (pos : Int × Int) :
    (g.remove_from_cell k a).cell_key pos = g.cell_key pos := rfl

theorem membersAt_cell_mut (g : GridPartition) (k k2 : CellKey) :
    (g.cell_mut k).membersAt k2 = g.membersAt k2 := by
  unfold GridPartition.cell_mut GridPartition.membersAt
  split
  · rfl
  next hns =>
    by_cases hk : k2 = k
    · subst hk
      cases hc : g.cells k2 with
      | none => simp [Cell.new]
      | some c => rw [hc] at hns; simp at hns
    · simp [hk]

theorem entities_cell_mut (g : GridPartition) (k : CellKey) :
    (g.cell_mut k).entities = g.entities := by
  unfold GridPartition.cell_mut
  split <;> rfl

theorem cells_cell_mut_self_isSome (g : GridPartition) (k : CellKey) :
    ((g.cell_mut k).cells k).isSome := by
  unfold GridPartition.cell_mut
  split
  next hs => exact hs
  next hns => simp

theorem cells_cell_mut_of_isSome (g : GridPartition) (k k2 : CellKey)
    (h : (g.cells k2).isSome) : (g.cell_mut k).cells k2 = g.cells k2 := by
  unfold GridPartition.cell_mut
  split
  · rfl
  next hns =>
    by_cases hk : k2 = k
    · subst hk; exact absurd h hns
    · simp [hk]

theorem cells_cell_mut_mono (g : GridPartition) (k k2 : CellKey)
    (h : (g.cells k2).isSome) : ((g.cell_mut k).cells k2).isSome := by
  rw [cells_cell_mut_of_isSome g k k2 h]; exact h

theorem cells_cell_mut_eq_or (g : GridPartition) (k k2 : CellKey) :
    (g.cell_mut k).cells k2 = g.cells k2
      ∨ (g.cells k2 = none ∧ (g.cell_mut k).cells k2 = some []) := by
  unfold GridPartition.cell_mut
  split
  · exact Or.inl rfl
  next hns =>
    by_cases hk : k2 = k
    · subst hk
      cases hc : g.cells k2 with
      | none => exact Or.inr ⟨rfl, by simp [Cell.new]⟩
      | some c => rw [hc] at hns; simp at hns
    · simp [hk]

/-! ### Query as a fold of `cell_mut` -/

theorem query_fold_fst (keys : List CellKey) :
    ∀ (g : GridPartition) (acc : List Nat),
      (keys.foldl GridPartition.queryStep (g, acc)).1
        = keys.foldl GridPartition.cell_mut g := by
  induction keys with
  | nil => intro g acc; rfl
  | cons k ks ih =>
    intro g acc
    rw [List.foldl_cons, List.foldl_cons]
    exact ih _ _

theorem query_fold_snd (keys : List CellKey) :
    ∀ (g : GridPartition) (acc : List Nat),
      (keys.foldl GridPartition.queryStep (g, acc)).2
        = acc ++ (keys.map (fun k => Cell.entities (g.membersAt k))).flatten := by
  induction keys with
  | nil => intro g acc; simp
  | cons k ks ih =>
    intro g acc
    rw [List.foldl_cons]
    have hstep : GridPartition.queryStep (g, acc) k
        = (g.cell_mut k, acc ++ Cell.entities (g.membersAt k)) := by
      unfold GridPartition.queryStep
      dsimp only
      rw [membersAt_cell_mut]
    rw [hstep, ih]
    have hmem : ∀ k2, Cell.entities ((g.cell_mut k).membersAt k2)
        = Cell.entities (g.membersAt k2) := by
      intro k2; rw [membersAt_cell_mut]
    simp only [hmem, List.map_cons, List.flatten_cons, List.append_assoc]

theorem foldl_cell_mut_membersAt (keys : List CellKey) :
    ∀ (g : GridPartition) (k2 : CellKey),
      (keys.foldl GridPartition.cell_mut g).membersAt k2 = g.membersAt k2 := by
  induction keys with
  | nil => intro g k2; rfl
  | cons k ks ih =>
    intro g k2
    rw [List.foldl_cons, ih, membersAt_cell_mut]

theorem foldl_cell_mut_entities (keys : List CellKey) :
    ∀ g : GridPartition, (keys.foldl GridPartition.cell_mut g).entities = g.entities := by
  induction keys with
  | nil => intro g; rfl
  | cons k ks ih =>
    intro g
    rw [List.foldl_cons, ih, entities_cell_mut]

theorem foldl_cell_mut_of_isSome (keys : List CellKey) :
    ∀ (g : GridPartition) (k2 : CellKey), (g.cells k2).isSome →
      (keys.foldl GridPartition.cell_mut g).cells k2 = g.cells k2 := by
  induction keys with
  | nil => intro g k2 _; rfl
  | cons k ks ih =>
    intro g k2 h
    rw [List.foldl_cons, ih _ _ (cells_cell_mut_mono g k k2 h),
      cells_cell_mut_of_isSome g k k2 h]

theorem foldl_cell_mut_mono (keys : List CellKey) :
    ∀ (g : GridPartition) (k2 : CellKey), (g.cells k2).isSome →
      ((keys.foldl GridPartition.cell_mut g).cells k2).isSome := by
  intro g k2 h
  rw [foldl_cell_mut_of_isSome keys g k2 h]
  exact h

theorem foldl_cell_mut_eq_or (keys : List CellKey) :
    ∀ (g : GridPartition) (k2 : CellKey),
      (keys.foldl GridPartition.cell_mut g).cells k2 = g.cells k2
        ∨ (g.cells k2 = none ∧ (keys.foldl GridPartition.cell_mut g).cells k2 = some []) := by
  induction keys with
  | nil => intro g k2; exact Or.inl rfl
  | cons k ks ih =>
    intro g k2
    rw [List.foldl_cons]
    rcases ih (g.cell_mut k) k2 with h | ⟨h1, h2⟩
    · rw [h]
      exact cells_cell_mut_eq_or g k k2
    · rcases cells_cell_mut_eq_or g k k2 with h3 | ⟨h3, h4⟩
      · rw [h3] at h1
        exact Or.inr ⟨h1, h2⟩
      · exact Or.inr ⟨h3, h2⟩

theorem foldl_cell_mut_mem (keys : List CellKey) :
    ∀ (g : GridPartition) (k2 : CellKey), k2 ∈ keys →
      ((keys.foldl GridPartition.cell_mut g).cells k2).isSome := by
  induction keys with
  | nil => intro g k2 h; simp at h
  | cons k ks ih =>
    intro g k2 h
    rw [List.foldl_cons]
    rcases List.mem_cons.1 h with rfl | h2
    · exact foldl_cell_mut_mono ks _ k2 (cells_cell_mut_self_isSome g k2)
    · exact ih _ k2 h2

theorem query_snd_eq (g : GridPartition) (sp ep : Int × Int) :
    (g.query sp ep).2
      = ((g.queryKeys sp ep).map (fun k => Cell.entities (g.membersAt k))).flatten := by
  unfold GridPartition.query
  rw [query_fold_snd]
  simp

theorem query_fst_membersAt (g : GridPartition) (sp ep : Int × Int) (k : CellKey) :
    (g.query sp ep).1.membersAt k = g.membersAt k := by
  unfold GridPartition.query
  rw [query_fold_fst, foldl_cell_mut_membersAt]

theorem query_fst_entities (g : GridPartition) (sp ep : Int × Int) :
    (g.query sp ep).1.entities = g.entities := by
  unfold GridPartition.query
  rw [query_fold_fst, foldl_cell_mut_entities]

/-! ### Range membership -/

theorem mem_intRange (lo hi x : Int) : x ∈ intRange lo hi ↔ lo ≤ x ∧ x ≤ hi := by
  simp only [intRange, List.mem_map, List.mem_range]
  constructor
  · rintro ⟨i, hi2, rfl⟩
    omega
  · rintro ⟨h1, h2⟩
    exact ⟨(x - lo).toNat, by omega, by omega⟩

theorem intRange_eq_nil (lo hi : Int) (h : hi < lo) : intRange lo hi = [] := by
  unfold intRange
  have : (hi + 1 - lo).toNat = 0 := by omega
  rw [this]
  rfl

theorem mem_queryKeys (g : GridPartition) (sp ep : Int × Int) (k : CellKey) :
    k ∈ g.queryKeys sp ep
      ↔ (g.row_col sp).1 ≤ k.row ∧ k.row ≤ (g.row_col ep).1
        ∧ (g.row_col sp).2 ≤ k.col ∧ k.col ≤ (g.row_col ep).2 := by
  unfold GridPartition.queryKeys
  simp only [List.mem_flatMap, List.mem_map, mem_intRange]
  constructor
  · rintro ⟨row, ⟨h1, h2⟩, col, ⟨h3, h4⟩, rfl⟩
    exact ⟨h1, h2, h3, h4⟩
  · rintro ⟨h1, h2, h3, h4⟩
    exact ⟨k.row, ⟨h1, h2⟩, k.col, ⟨h3, h4⟩, rfl⟩

/-! ### Characterizations of `update_entity` -/

theorem update_entity_eq_of_none (g : GridPartition) (a : Nat) (pos : Int × Int)
    (h : g.entities a = none) :
    g.update_entity a pos
      = GridPartition.add_to_cell
          { g with entities := fun i => if i = a then some (g.cell_key pos) else g.entities i }
          (g.cell_key pos) a := by
  unfold GridPartition.update_entity
  rw [h]

theorem update_entity_eq_of_some (g : GridPartition) (a : Nat) (pos : Int × Int)
    (L : CellKey) (h : g.entities a = some L) :
    g.update_entity a pos
      = (g.remove_from_cell L a).add_to_cell (g.cell_key pos) a := by
  unfold GridPartition.update_entity
  rw [h]

theorem cell_key_update_entity (g : GridPartition) (a : Nat) (pos q : Int × Int) :
    (g.update_entity a pos).cell_key q = g.cell_key q := by
  cases hj : g.entities a with
  | none => rw [update_entity_eq_of_none g a pos hj]; rfl
  | some L => rw [update_entity_eq_of_some g a pos L hj]; rfl

theorem entities_update_entity_of_none (g : GridPartition) (a : Nat) (pos : Int × Int)
    (h : g.entities a = none) :
    (g.update_entity a pos).entities
      = fun i => if i = a then some (g.cell_key pos) else g.entities i := by
  rw [update_entity_eq_of_none g a pos h, entities_add_to_cell]

theorem entities_update_entity_of_some (g : GridPartition) (a : Nat) (pos : Int × Int)
    (L : CellKey) (h : g.entities a = some L) :
    (g.update_entity a pos).entities = g.entities := by
  rw [update_entity_eq_of_some g a pos L h, entities_add_to_cell, entities_remove_from_cell]

theorem membersAt_update_entity_of_none (g : GridPartition) (a : Nat) (pos : Int × Int)
    (h : g.entities a = none) (k2 : CellKey) :
    (g.update_entity a pos).membersAt k2
      = if k2 = g.cell_key pos then g.membersAt (g.cell_key pos) ++ [a]
        else g.membersAt k2 := by
  rw [update_entity_eq_of_none g a pos h, membersAt_add_to_cell]
  rfl

theorem membersAt_update_entity_of_some (g : GridPartition) (a : Nat) (pos : Int × Int)
    (L : CellKey) (h : g.entities a = some L) (k2 : CellKey) :
    (g.update_entity a pos).membersAt k2
      = if k2 = g.cell_key pos
        then (if g.cell_key pos = L then Cell.remove (g.membersAt L) a
              else g.membersAt (g.cell_key pos)) ++ [a]
        else (if k2 = L then Cell.remove (g.membersAt L) a else g.membersAt k2) := by
  rw [update_entity_eq_of_some g a pos L h, membersAt_add_to_cell,
    membersAt_remove_from_cell, membersAt_remove_from_cell]

theorem entities_update_entity_ne (g : GridPartition) (j a : Nat) (pos : Int × Int)
    (haj : a ≠ j) : (g.update_entity j pos).entities a = g.entities a := by
  cases hj : g.entities j with
  | none => rw [entities_update_entity_of_none g j pos hj]; simp [haj]
  | some L => rw [entities_update_entity_of_some g j pos L hj]

theorem count_membersAt_update_entity_ne (g : GridPartition) (j a : Nat)
    (pos : Int × Int) (haj : a ≠ j) (k : CellKey) :
    ((g.update_entity j pos).membersAt k).count a = (g.membersAt k).count a := by
  have hja : (([j] : List Nat).count a) = 0 := by
    rw [List.count_singleton]
    simp [Ne.symm haj]
  cases hj : g.entities j with
  | none =>
    rw [membersAt_update_entity_of_none g j pos hj k]
    by_cases hk : k = g.cell_key pos
    · rw [if_pos hk, List.count_append, hja, Nat.add_zero, hk]
    · rw [if_neg hk]
  | some L0 =>
    rw [membersAt_update_entity_of_some g j pos L0 hj k]
    by_cases hk : k = g.cell_key pos
    · rw [if_pos hk, List.count_append, hja, Nat.add_zero, hk]
      by_cases h2 : g.cell_key pos = L0
      · rw [if_pos h2, count_remove_ne _ _ _ haj, h2]
      · rw [if_neg h2]
    · rw [if_neg hk]
      by_cases h2 : k = L0
      · rw [if_pos h2, count_remove_ne _ _ _ haj, h2]
      · rw [if_neg h2]

/-! ### The location invariant of reachable states -/

/-- In every state reachable through the public interface, an unregistered
id occurs in no cell, and a registered id occurs at most once in the cell
recorded for it in `entities`. -/
def LocInv (g : GridPartition) : Prop :=
  ∀ a : Nat,
    (g.entities a = none → ∀ k, (g.membersAt k).count a = 0)
  ∧ (∀ L, g.entities a = some L → (g.membersAt L).count a ≤ 1)

theorem locInv_new (w h : Int) : LocInv (GridPartition.new w h) := by
  intro a
  constructor
  · intro _ k
    rfl
  · intro L hL
    exact absurd hL (by simp [GridPartition.new])

theorem locInv_update_entity (g : GridPartition) (j : Nat) (pos : Int × Int)
    (hg : LocInv g) : LocInv (g.update_entity j pos) := by
  intro a
  by_cases haj : a = j
  · subst haj
    cases hj : g.entities a with
    | none =>
      have hentj : (g.update_entity a pos).entities a = some (g.cell_key pos) := by
        rw [entities_update_entity_of_none g a pos hj]
        simp
      constructor
      · intro ha
        rw [hentj] at ha
        cases ha
      · intro L hL
        rw [hentj] at hL
        injection hL with hL2
        subst hL2
        rw [membersAt_update_entity_of_none g a pos hj (g.cell_key pos), if_pos rfl,
          List.count_append, (hg a).1 hj (g.cell_key pos), List.count_singleton]
        simp
    | some L0 =>
      have hentj : (g.update_entity a pos).entities a = some L0 := by
        rw [entities_update_entity_of_some g a pos L0 hj, hj]
      constructor
      · intro ha
        rw [hentj] at ha
        cases ha
      · intro L hL
        rw [hentj] at hL
        injection hL with hL2
        subst hL2
        have h0 := count_remove_eq_zero (g.membersAt L0) a ((hg a).2 L0 hj)
        rw [membersAt_update_entity_of_some g a pos L0 hj L0]
        by_cases hLk : L0 = g.cell_key pos
        · rw [if_pos hLk, if_pos hLk.symm, List.count_append, h0,
            List.count_singleton]
          simp
        · rw [if_neg hLk, if_pos rfl, h0]
          simp
  · constructor
    · intro ha k
      rw [count_membersAt_update_entity_ne g j a pos haj k]
      rw [entities_update_entity_ne g j a pos haj] at ha
      exact (hg a).1 ha k
    · intro L hL
      rw [count_membersAt_update_entity_ne g j a pos haj L]
      rw [entities_update_entity_ne g j a pos haj] at hL
      exact (hg a).2 L hL

theorem locInv_query (g : GridPartition) (sp ep : Int × Int)
    (hg : LocInv g) : LocInv (g.query sp ep).1 := by
  intro a
  constructor
  · intro ha k
    rw [query_fst_entities] at ha
    rw [query_fst_membersAt]
    exact (hg a).1 ha k
  · intro L hL
    rw [query_fst_entities] at hL
    rw [query_fst_membersAt]
    exact (hg a).2 L hL

theorem locInv_of_reachable {g : GridPartition} (h : Reachable g) : LocInv g := by
  induction h with
  | new w h2 => exact locInv_new w h2
  | update_entity g id pos _ ih => exact locInv_update_entity g id pos ih
  | query g sp ep _ ih => exact locInv_query g sp ep ih

/-! ### Idempotence of `update_entity` -/

theorem update_twice_mem (g : GridPartition) (j : Nat) (pos : Int × Int)
    (hinv : ∀ L, g.entities j = some L → (g.membersAt L).count j ≤ 1) :
    ∀ (k : CellKey) (x : Nat),
      x ∈ ((g.update_entity j pos).update_entity j pos).membersAt k
        ↔ x ∈ (g.update_entity j pos).membersAt k := by
  intro k x
  have hck := cell_key_update_entity g j pos pos
  cases hj : g.entities j with
  | none =>
    have hent1 : (g.update_entity j pos).entities j = some (g.cell_key pos) := by
      rw [entities_update_entity_of_none g j pos hj]
      simp
    rw [membersAt_update_entity_of_some (g.update_entity j pos) j pos (g.cell_key pos)
      hent1 k, hck]
    by_cases hk : k = g.cell_key pos
    · rw [if_pos hk, if_pos rfl, hk]
      have hjmem : j ∈ (g.update_entity j pos).membersAt (g.cell_key pos) := by
        rw [membersAt_update_entity_of_none g j pos hj, if_pos rfl]
        simp
      exact mem_remove_append_iff _ j x hjmem
    · rw [if_neg hk, if_neg hk]
  | some L0 =>
    have hent1 : (g.update_entity j pos).entities j = some L0 := by
      rw [entities_update_entity_of_some g j pos L0 hj, hj]
    rw [membersAt_update_entity_of_some (g.update_entity j pos) j pos L0 hent1 k, hck]
    by_cases hLk : L0 = g.cell_key pos
    · rw [← hLk]
      by_cases hk : k = L0
      · rw [if_pos hk, if_pos rfl, hk]
        have hjmem : j ∈ (g.update_entity j pos).membersAt L0 := by
          rw [membersAt_update_entity_of_some g j pos L0 hj L0, hLk, if_pos rfl,
            if_pos rfl]
          simp
        exact mem_remove_append_iff _ j x hjmem
      · rw [if_neg hk, if_neg hk]
    · by_cases hk : k = g.cell_key pos
      · rw [if_pos hk, if_neg (fun hc => hLk hc.symm), hk]
        rw [membersAt_update_entity_of_some g j pos L0 hj (g.cell_key pos), if_pos rfl,
          if_neg (fun hc => hLk hc.symm)]
        simp only [List.mem_append, List.mem_singleton]
        tauto
      · rw [if_neg hk]
        by_cases hL : k = L0
        · rw [if_pos hL, hL]
          have hmem0 : (g.update_entity j pos).membersAt L0
              = Cell.remove (g.membersAt L0) j := by
            rw [membersAt_update_entity_of_some g j pos L0 hj L0, if_neg hLk, if_pos rfl]
          have hnot : j ∉ (g.update_entity j pos).membersAt L0 := by
            rw [hmem0]
            exact List.count_eq_zero.1
              (count_remove_eq_zero (g.membersAt L0) j (hinv L0 hj))
          rw [remove_of_not_mem _ j hnot]
        · rw [if_neg hL]

/-! ### Presence of cells in the `cells` map -/

theorem cells_new (w h : Int) (k : CellKey) : (GridPartition.new w h).cells k = none := rfl

theorem cells_add_to_cell_self (g : GridPartition) (k : CellKey) (a : Nat) :
    ((g.add_to_cell k a).cells k).isSome := by
  unfold GridPartition.add_to_cell
  simp

theorem cells_add_to_cell_mono (g : GridPartition) (k : CellKey) (a : Nat) (k2 : CellKey)
    (h : (g.cells k2).isSome) : ((g.add_to_cell k a).cells k2).isSome := by
  unfold GridPartition.add_to_cell
  by_cases hk : k2 = k
  · simp [hk]
  · simpa [hk] using h

theorem cells_remove_from_cell_mono (g : GridPartition) (k : CellKey) (a : Nat)
    (k2 : CellKey) (h : (g.cells k2).isSome) :
    ((g.remove_from_cell k a).cells k2).isSome := by
  unfold GridPartition.remove_from_cell
  by_cases hk : k2 = k
  · simp [hk]
  · simpa [hk] using h

theorem cells_update_entity_mono (g : GridPartition) (j : Nat) (pos : Int × Int)
    (k2 : CellKey) (h : (g.cells k2).isSome) :
    ((g.update_entity j pos).cells k2).isSome := by
  cases hj : g.entities j with
  | none =>
    rw [update_entity_eq_of_none g j pos hj]
    exact cells_add_to_cell_mono _ _ _ _ h
  | some L =>
    rw [update_entity_eq_of_some g j pos L hj]
    exact cells_add_to_cell_mono _ _ _ _ (cells_remove_from_cell_mono _ _ _ _ h)

theorem cells_update_entity_self (g : GridPartition) (j : Nat) (pos : Int × Int) :
    ((g.update_entity j pos).cells (g.cell_key pos)).isSome := by
  cases hj : g.entities j with
  | none =>
    rw [update_entity_eq_of_none g j pos hj]
    exact cells_add_to_cell_self _ _ _
  | some L =>
    rw [update_entity_eq_of_some g j pos L hj]
    exact cells_add_to_cell_self _ _ _

theorem cells_query_mono (g : GridPartition) (sp ep : Int × Int) (k : CellKey)
    (h : (g.cells k).isSome) : ((g.query sp ep).1.cells k).isSome := by
  unfold GridPartition.query
  rw [query_fold_fst]
  exact foldl_cell_mut_mono _ _ _ h

theorem cells_query_of_isSome (g : GridPartition) (sp ep : Int × Int) (k : CellKey)
    (h : (g.cells k).isSome) : (g.query sp ep).1.cells k = g.cells k := by
  unfold GridPartition.query
  rw [query_fold_fst]
  exact foldl_cell_mut_of_isSome _ _ _ h

theorem cells_query_eq_or (g : GridPartition) (sp ep : Int × Int) (k : CellKey) :
    (g.query sp ep).1.cells k = g.cells k
      ∨ (g.cells k = none ∧ (g.query sp ep).1.cells k = some []) := by
  unfold GridPartition.query
  rw [query_fold_fst]
  exact foldl_cell_mut_eq_or _ _ _

theorem cells_query_of_mem (g : GridPartition) (sp ep : Int × Int) (k : CellKey)
    (h : k ∈ g.queryKeys sp ep) : ((g.query sp ep).1.cells k).isSome := by
  unfold GridPartition.query
  rw [query_fold_fst]
  exact foldl_cell_mut_mem _ _ _ h

theorem queryKeys_eq_nil (g : GridPartition) (sp ep : Int × Int)
    (h : (g.row_col ep).1 < (g.row_col sp).1 ∨ (g.row_col ep).2 < (g.row_col sp).2) :
    g.queryKeys sp ep = [] := by
  unfold GridPartition.queryKeys
  dsimp only
  rcases h with h | h
  · rw [intRange_eq_nil _ _ h]
    exact List.flatMap_nil _
  · rw [List.flatMap_eq_nil_iff]
    intro x _
    rw [intRange_eq_nil _ _ h]
    rfl

/-! ### The claims -/

/-- Claim C1: for every pair of positions, `query` returns exactly the
concatenation, in row-major enumeration order (rows outer, columns inner,
both ascending — the order of `queryKeys`), of the membership sequences of
all cells whose key has row in `[start_row, end_row]` and col in
`[start_col, end_col]` inclusive, the bounds being derived from the two
positions by the same truncating-division derivation (`row_col`) used by
`update_entity` through `cell_key`. -/
theorem claim_C1 :
    (∀ (g : GridPartition) (sp ep : Int × Int),
        (g.query sp ep).2
          = ((g.queryKeys sp ep).map (fun k => Cell.entities (g.membersAt k))).flatten)
  ∧ (∀ (g : GridPartition) (sp ep : Int × Int) (k : CellKey),
        k ∈ g.queryKeys sp ep
          ↔ (g.row_col sp).1 ≤ k.row ∧ k.row ≤ (g.row_col ep).1
            ∧ (g.row_col sp).2 ≤ k.col ∧ k.col ≤ (g.row_col ep).2)
  ∧ (∀ (g : GridPartition) (pos : Int × Int),
        g.cell_key pos = CellKey.new (g.row_col pos).1 (g.row_col pos).2) :=
  ⟨query_snd_eq, mem_queryKeys, fun _ _ => rfl⟩

/-- Claim C2: on a fresh grid with cell size 10, after `update_entity 1 (5,5)`
then `update_entity 1 (25,15)`, cell `(0,0)` no longer contains id 1 and cell
`(1,2)` contains id 1. -/
theorem claim_C2 :
    ¬ (1 ∈ (((GridPartition.new 10 10).update_entity 1 (5, 5)).update_entity
        1 (25, 15)).membersAt (CellKey.new 0 0))
  ∧ 1 ∈ (((GridPartition.new 10 10).update_entity 1 (5, 5)).update_entity
        1 (25, 15)).membersAt (CellKey.new 1 2) := by
  decide

/-- Claim C3: for every position `(x, y)` and positive cell dimensions, the
derived cell key is `(y div cell_height, x div cell_width)` with truncating
division (`Int.tdiv`, not floor division); with cell size 10, `(0,0)` and
`(5,5)` map to `(0,0)`, `(10,5)` to `(0,1)`, `(5,10)` to `(1,0)`; truncation
(not flooring) sends `(-5,-5)` to `(0,0)`. -/
theorem claim_C3 :
    (∀ (g : GridPartition) (x y : Int), 0 < g.cell_width → 0 < g.cell_height →
        g.cell_key (x, y) = CellKey.new (Int.tdiv y g.cell_height)
          (Int.tdiv x g.cell_width))
  ∧ (GridPartition.new 10 10).cell_key (0, 0) = CellKey.new 0 0
  ∧ (GridPartition.new 10 10).cell_key (5, 5) = CellKey.new 0 0
  ∧ (GridPartition.new 10 10).cell_key (10, 5) = CellKey.new 0 1
  ∧ (GridPartition.new 10 10).cell_key (5, 10) = CellKey.new 1 0
  ∧ (GridPartition.new 10 10).cell_key (-5, -5) = CellKey.new 0 0
  ∧ Int.tdiv (-5) 10 ≠ Int.fdiv (-5) 10 := by
  exact ⟨fun g x y _ _ => rfl, by decide, by decide, by decide, by decide, by decide,
    by decide⟩

/-- Witness for C3 at cell size 10 and position `(5, 5)`. -/
theorem claim_C3_witness :
    (0 : Int) < (GridPartition.new 10 10).cell_width
  ∧ (GridPartition.new 10 10).cell_key (5, 5)
      = CellKey.new (Int.tdiv 5 (GridPartition.new 10 10).cell_height)
          (Int.tdiv 5 (GridPartition.new 10 10).cell_width) :=
  ⟨by decide, claim_C3.1 (GridPartition.new 10 10) 5 5 (by decide) (by decide)⟩

/-- Claim C4: the entity-id-to-cell-key map is written only on first
registration: for an id already present in `entities`, a subsequent
`update_entity` leaves its recorded cell key unchanged, regardless of the
new position. -/
theorem claim_C4 (g : GridPartition) (a : Nat) (k : CellKey) (pos : Int × Int)
    (h : g.entities a = some k) :
    (g.update_entity a pos).entities a = some k := by
  rw [entities_update_entity_of_some g a pos k h]
  exact h

/-- Witness for C4: after moving id 1 from `(5,5)` to `(25,15)` the recorded
location is still the stale `(0,0)`. -/
theorem claim_C4_witness :
    (((GridPartition.new 10 10).update_entity 1 (5, 5)).update_entity
        1 (25, 15)).entities 1 = some (CellKey.new 0 0) :=
  claim_C4 ((GridPartition.new 10 10).update_entity 1 (5, 5)) 1 (CellKey.new 0 0)
    (25, 15) (by decide)

/-- Claim C5: on every grid state reachable through the public interface,
calling `update_entity` twice in a row with the same id and position leaves
every cell's membership equal, as a set, to the membership after calling it
once. -/
theorem claim_C5 (g : GridPartition) (hg : Reachable g) (a : Nat) (pos : Int × Int) :
    ∀ (k : CellKey) (x : Nat),
      x ∈ ((g.update_entity a pos).update_entity a pos).membersAt k
        ↔ x ∈ (g.update_entity a pos).membersAt k :=
  update_twice_mem g a pos (fun L hL => ((locInv_of_reachable hg) a).2 L hL)

/-- Witness for C5 on the freshly constructed grid. -/
theorem claim_C5_witness :
    1 ∈ (((GridPartition.new 10 10).update_entity 1 (5, 5)).update_entity
          1 (5, 5)).membersAt (CellKey.new 0 0)
      ↔ 1 ∈ ((GridPartition.new 10 10).update_entity 1 (5, 5)).membersAt
          (CellKey.new 0 0) :=
  claim_C5 (GridPartition.new 10 10) (Reachable.new 10 10) 1 (5, 5) (CellKey.new 0 0) 1

/-- Claim C6: `Cell.remove` removes the first occurrence of the id by moving
the last element into the removed slot and shrinking by one (swap-and-
truncate); each call excludes exactly one occurrence (the count drops by
one) and preserves every other member's count (hence the members as a set);
`add 4; add 5; add 6; remove 4` yields `[6, 5]`, not `[5, 6]`. -/
theorem claim_C6 :
    (∀ (c : Cell) (a i : Nat),
        position (fun e => e == a) c = some i →
          Cell.remove c a = (c.set i (c.getLastD 0)).dropLast)
  ∧ (∀ (c : Cell) (a : Nat), a ∈ c →
        (Cell.remove c a).count a + 1 = c.count a
        ∧ ∀ x : Nat, x ≠ a → (Cell.remove c a).count x = c.count x)
  ∧ Cell.remove (Cell.add (Cell.add (Cell.add Cell.new 4) 5) 6) 4 = [6, 5] := by
  refine ⟨?_, ?_, by decide⟩
  · intro c a i h
    unfold Cell.remove
    rw [h]
    rfl
  · intro c a h
    exact ⟨count_remove_self c a h, fun x hx => count_remove_ne c a x hx⟩

/-- Witness for C6 on the list `[4, 5, 6]`. -/
theorem claim_C6_witness :
    Cell.remove [4, 5, 6] 4
        = (([4, 5, 6] : List Nat).set 0 (([4, 5, 6] : List Nat).getLastD 0)).dropLast
  ∧ (Cell.remove [4, 5, 6] 4).count 4 + 1 = ([4, 5, 6] : List Nat).count 4
  ∧ (Cell.remove [4, 5, 6] 4).count 5 = ([4, 5, 6] : List Nat).count 5 :=
  ⟨claim_C6.1 [4, 5, 6] 4 0 (by decide),
   (claim_C6.2.1 [4, 5, 6] 4 (by decide)).1,
   (claim_C6.2.1 [4, 5, 6] 4 (by decide)).2 5 (by decide)⟩

/-- Claim C7: removing an id that is absent from a cell's membership
sequence is a silent no-op — the sequence is left exactly unchanged (and
`Cell.remove` is total, so no failure can be raised). -/
theorem claim_C7 (c : Cell) (a : Nat) (h : a ∉ c) : Cell.remove c a = c :=
  remove_of_not_mem c a h

/-- Witness for C7: removing 5 from `[1, 2]`. -/
theorem claim_C7_witness : Cell.remove [1, 2] 5 = [1, 2] :=
  claim_C7 [1, 2] 5 (by decide)

/-- Counterexample to C8 as stated: with cell size 10 and an entity at
`(5,5)`, the query from `(9,9)` to `(5,5)` has every start component
exceeding the corresponding end component, yet it returns `[1]`, not the
empty sequence — both positions derive the same cell key `(0,0)`, so the
row/col ranges are not inverted. -/
theorem claim_C8_counterexample :
    (5 : Int) < 9
  ∧ (((GridPartition.new 10 10).update_entity 1 (5, 5)).query (9, 9) (5, 5)).2
      = [1] := by
  decide

/-- Claim C8 (amended): whenever the derived start row exceeds the derived
end row, or the derived start column exceeds the derived end column — in
particular whenever inverted positions put the start in a strictly later
cell — the derived ranges are empty or inverted, and `query` returns the
empty sequence with no error raised. -/
theorem claim_C8 (g : GridPartition) (sp ep : Int × Int)
    (h : (g.row_col ep).1 < (g.row_col sp).1 ∨ (g.row_col ep).2 < (g.row_col sp).2) :
    (g.query sp ep).2 = [] := by
  rw [query_snd_eq, queryKeys_eq_nil g sp ep h]
  rfl

/-- Witness for C8 (amended): querying from `(0, 20)` down to `(0, 0)`. -/
theorem claim_C8_witness : ((GridPartition.new 10 10).query (0, 20) (0, 0)).2 = [] :=
  claim_C8 (GridPartition.new 10 10) (0, 20) (0, 0) (by decide)

/-- Claim C9: cells are created lazily and never removed — a fresh grid has
no cells; presence of a cell key in `cells` is preserved by `update_entity`
and by `query`; `update_entity` materialises the target cell; and `query`
materialises a cell for every enumerated key. -/
theorem claim_C9 :
    (∀ (w h : Int) (k : CellKey), (GridPartition.new w h).cells k = none)
  ∧ (∀ (g : GridPartition) (a : Nat) (pos : Int × Int) (k : CellKey),
        (g.cells k).isSome → ((g.update_entity a pos).cells k).isSome)
  ∧ (∀ (g : GridPartition) (sp ep : Int × Int) (k : CellKey),
        (g.cells k).isSome → ((g.query sp ep).1.cells k).isSome)
  ∧ (∀ (g : GridPartition) (a : Nat) (pos : Int × Int),
        ((g.update_entity a pos).cells (g.cell_key pos)).isSome)
  ∧ (∀ (g : GridPartition) (sp ep : Int × Int) (k : CellKey),
        k ∈ g.queryKeys sp ep → ((g.query sp ep).1.cells k).isSome) :=
  ⟨cells_new, cells_update_entity_mono, cells_query_mono, cells_update_entity_self,
   cells_query_of_mem⟩

/-- Witness for C9: the hypothesised parts applied at concrete states. -/
theorem claim_C9_witness :
    ((((GridPartition.new 10 10).update_entity 1 (5, 5)).update_entity
        2 (25, 15)).cells (CellKey.new 0 0)).isSome
  ∧ ((((GridPartition.new 10 10).update_entity 1 (5, 5)).query
        (50, 50) (50, 50)).1.cells (CellKey.new 0 0)).isSome
  ∧ ((((GridPartition.new 10 10).update_entity 1 (5, 5)).query
        (0, 0) (15, 15)).1.cells (CellKey.new 1 1)).isSome :=
  ⟨claim_C9.2.1 ((GridPartition.new 10 10).update_entity 1 (5, 5)) 2 (25, 15)
      (CellKey.new 0 0) (by decide),
   claim_C9.2.2.1 ((GridPartition.new 10 10).update_entity 1 (5, 5)) (50, 50) (50, 50)
      (CellKey.new 0 0) (by decide),
   claim_C9.2.2.2.2 ((GridPartition.new 10 10).update_entity 1 (5, 5)) (0, 0) (15, 15)
      (CellKey.new 1 1) (by decide)⟩

/-- Claim C10: `query` never changes observable entity state — it leaves
the `entities` map exactly unchanged, leaves every previously existing cell
exactly unchanged, and its only mutation is inserting new empty cells. -/
theorem claim_C10 (g : GridPartition) (sp ep : Int × Int) :
    (g.query sp ep).1.entities = g.entities
  ∧ (∀ k : CellKey, (g.cells k).isSome → (g.query sp ep).1.cells k = g.cells k)
  ∧ (∀ k : CellKey,
        (g.query sp ep).1.cells k = g.cells k
          ∨ (g.cells k = none ∧ (g.query sp ep).1.cells k = some [])) :=
  ⟨query_fst_entities g sp ep,
   fun k h => cells_query_of_isSome g sp ep k h,
   fun k => cells_query_eq_or g sp ep k⟩

/-- Witness for C10: a query over an existing cell leaves it unchanged. -/
theorem claim_C10_witness :
    (((GridPartition.new 10 10).update_entity 1 (5, 5)).query
        (0, 0) (25, 25)).1.cells (CellKey.new 0 0)
      = ((GridPartition.new 10 10).update_entity 1 (5, 5)).cells (CellKey.new 0 0) :=
  (claim_C10 ((GridPartition.new 10 10).update_entity 1 (5, 5)) (0, 0) (25, 25)).2.1
    (CellKey.new 0 0) (by decide)

end Chariot
